import Mathlib

/-
Shallow embedding of the product comparison engine
(src/comparison_engine.py): FeatureMatcher, UnitConverter,
MatrixGenerator, MarkdownTemplateGenerator and ComparisonEngine.

Modelling conventions:
- Python dicts are association lists in insertion order; assignment to an
  existing key replaces the value in place, assignment to a fresh key
  appends at the end (CPython dict semantics).
- Python floats are modelled as exact fractions (`PyNum`, an integer
  numerator over a positive natural denominator, compared by value as
  floats are).  Every conversion factor in the source is a ratio of
  decimal literals, and every numeric claim checked below is either exact
  in binary64 as well or stated with a tolerance far above the 1e-16
  scale of double rounding.
- Exceptions are modelled with Option / Except: a `none` result of a stage
  is the stage raising.
-/

namespace CompEngine

/-- Python regex `\w` word character (ASCII inputs). -/
def isWordChar (c : Char) : Bool := c.isAlphanum || c = '_'

/-- Python regex `\s` whitespace character. -/
def pyIsSpace (c : Char) : Bool :=
  c = ' ' || c = '\t' || c = '\n' || c = '\r' || c = '\x0b' || c = '\x0c'

/-- Does the first list occur as a prefix of the second? -/
def headSeg : List Char → List Char → Bool
  | [], _ => true
  | _ :: _, [] => false
  | a :: as, b :: bs => a = b && headSeg as bs

/-- Python substring test `needle in hay` on character lists. -/
def containsSub (needle : List Char) : List Char → Bool
  | [] => headSeg needle []
  | c :: rest => headSeg needle (c :: rest) || containsSub needle rest

/-- Python substring test `needle in hay` on strings. -/
def strContains (needle hay : String) : Bool :=
  containsSub needle.toList hay.toList

/-- Maximal runs of word characters, as produced by
`re.findall(r"\b\w+\b", s)`. -/
def splitRunsAux : List Char → List Char → List String
  | acc, [] => if acc.isEmpty then [] else [String.mk acc.reverse]
  | acc, c :: rest =>
    if isWordChar c then splitRunsAux (c :: acc) rest
    else if acc.isEmpty then splitRunsAux [] rest
    else String.mk acc.reverse :: splitRunsAux [] rest

def pyWords (s : String) : List String := splitRunsAux [] s.toList

/-- Python `str.lower()` (ASCII inputs): lowercase character by
character. -/
def pyToLower (s : String) : String := String.mk (s.toList.map Char.toLower)

/-- The characters before the first occurrence of `sep`, or `none` when
`sep` does not occur. -/
def beforeFirst (sep : List Char) : List Char → Option (List Char)
  | [] => if headSeg sep [] then some [] else none
  | c :: rest =>
    if headSeg sep (c :: rest) then some []
    else (beforeFirst sep rest).map (fun l => c :: l)

/-- Python `s.split(sep, 1)[0]`: the part before the first occurrence
of the separator (the whole string when the separator is absent). -/
def splitFirstOn (sep : String) (s : String) : String :=
  match beforeFirst sep.toList s.toList with
  | some l => String.mk l
  | none => s

/-- A Python float value, kept as an exact fraction: an integer
numerator over a positive natural denominator.  Floats compare by
value, so all comparisons below cross-multiply; no normalization is
needed. -/
structure PyNum where
  num : Int
  den : ℕ+
deriving DecidableEq

def PyNum.le (a b : PyNum) : Prop := a.num * (b.den : Int) ≤ b.num * (a.den : Int)

def PyNum.lt (a b : PyNum) : Prop := a.num * (b.den : Int) < b.num * (a.den : Int)

instance (a b : PyNum) : Decidable (PyNum.le a b) := by unfold PyNum.le; infer_instance

instance (a b : PyNum) : Decidable (PyNum.lt a b) := by unfold PyNum.lt; infer_instance

def PyNum.mul (a b : PyNum) : PyNum := ⟨a.num * b.num, a.den * b.den⟩

/-- The exact rational value of a Python float, for readable statements. -/
def PyNum.toRat (a : PyNum) : Rat := (a.num : Rat) / ((a.den : Nat) : Rat)

def pyOfNat (n : Nat) : PyNum := ⟨n, 1⟩

/-- `FeatureMatcher._calculate_similarity`: case-folded equality (1.0),
containment (0.9), else Jaccard similarity of word sets. -/
def calcSimilarity (str1 str2 : String) : PyNum :=
  let s1 := pyToLower str1
  let s2 := pyToLower str2
  if s1 = s2 then ⟨1, 1⟩
  else if strContains s1 s2 || strContains s2 s1 then ⟨9, 10⟩
  else
    let words1 := (pyWords s1).toFinset
    let words2 := (pyWords s2).toFinset
    if words1 = ∅ ∨ words2 = ∅ then ⟨0, 1⟩
    else
      let inter := (words1 ∩ words2).card
      let uni := (words1 ∪ words2).card
      if h : 0 < uni then ⟨inter, ⟨uni, h⟩⟩ else ⟨0, 1⟩

/-- `FeatureMatcher.feature_categories`, in declaration order. -/
def featureCategories : List (String × List String) := [
  ("processor", ["processor", "cpu", "chipset", "soc"]),
  ("memory", ["ram", "memory"]),
  ("storage", ["storage", "disk", "drive", "ssd", "hdd"]),
  ("display", ["display", "screen", "monitor"]),
  ("camera", ["camera", "lens", "photo"]),
  ("battery", ["battery", "power", "charge"]),
  ("dimensions", ["dimensions", "size", "weight"]),
  ("connectivity", ["wifi", "bluetooth", "nfc", "usb", "port"]),
  ("os", ["os", "operating system", "software"]),
  ("price", ["price", "cost", "msrp"]),
  ("graphics", ["graphics", "gpu", "vga", "video"])]

/-- Search for the pattern `(?i)\b<kw>\w*\b` in a string: the keyword must
occur at a position not preceded by a word character (the trailing
`\w*\b` always succeeds since every keyword ends in a word character).
The boolean argument records whether the previous character was a word
character. -/
def kwSearchAux (kw : List Char) : Bool → List Char → Bool
  | _, [] => false
  | prevWord, c :: rest =>
    (!prevWord && headSeg kw (c :: rest)) || kwSearchAux kw (isWordChar c) rest

def keywordMatches (kw : String) (s : String) : Bool :=
  kwSearchAux kw.toList false s.toList

/-- `FeatureMatcher._categorize_feature`: a label of the shape
`<category> - <subkey>` returns the part before the first " - "
lowercased; otherwise the first category one of whose keyword patterns
matches the lowercased label wins; otherwise "other". -/
def categorizeFeature (featureKey : String) : String :=
  if strContains " - " featureKey then
    pyToLower (splitFirstOn " - " featureKey)
  else
    let lower := pyToLower featureKey
    match featureCategories.find? (fun p => p.2.any (fun kw => keywordMatches kw lower)) with
    | some p => p.1
    | none => "other"

/-! Association-list model of Python dicts. -/

def alistGet {α : Type} (l : List (String × α)) (k : String) : Option α :=
  (l.find? (fun p => p.1 = k)).map Prod.snd

/-- Dict assignment `d[k] = v`: replace in place, or append a fresh key. -/
def upsertReplace {α : Type} (k : String) (v : α) : List (String × α) → List (String × α)
  | [] => [(k, v)]
  | (k0, v0) :: rest => if k0 = k then (k0, v) :: rest else (k0, v0) :: upsertReplace k v rest

/-- Modify a dict entry through `f`, starting from `dflt` for a fresh key. -/
def upsertWith {α : Type} (k : String) (dflt : α) (f : α → α) : List (String × α) → List (String × α)
  | [] => [(k, f dflt)]
  | (k0, v0) :: rest => if k0 = k then (k0, f v0) :: rest else (k0, v0) :: upsertWith k dflt f rest

/-- Python `max(x :: l, key = f)` for a strictly-greater test `gtB`:
the first element attaining the maximum (later elements replace the
current best only when strictly greater). -/
def pyMaxBy {α β : Type} (gtB : β → β → Bool) (f : α → β) (x : α) : List α → α
  | [] => x
  | y :: ys => if gtB (f y) (f x) then pyMaxBy gtB f y ys else pyMaxBy gtB f x ys

/-- Python `min(x :: l, key = f)` for a strictly-less test `ltB`: the
first element attaining the minimum. -/
def pyMinBy {α β : Type} (ltB : β → β → Bool) (f : α → β) (x : α) : List α → α
  | [] => x
  | y :: ys => if ltB (f y) (f x) then pyMinBy ltB f y ys else pyMinBy ltB f x ys

/-- Float `y > x` as a boolean. -/
def pyGtB (y x : PyNum) : Bool := decide (PyNum.lt x y)

/-- Float `y < x` as a boolean. -/
def pyLtB (y x : PyNum) : Bool := decide (PyNum.lt y x)

/-- Natural `y > x` as a boolean, for the canonical-label choice. -/
def natGtB (y x : Nat) : Bool := decide (x < y)

/-! The data model. -/

/-- A Python scalar specification value: typically a string, but any
scalar may appear; integers stand for the non-string scalars. -/
inductive PyVal where
  | s (v : String)
  | i (n : Int)
deriving DecidableEq

/-- Python `str(value)`, as used by f-string interpolation. -/
def pyStr : PyVal → String
  | .s v => v
  | .i n => toString n

/-- A product record as consumed by the engine: `product_name` optional,
`specifications` a nested dict category → (label → value).  A record
missing `specifications` is the record with the empty list here
(`product_data.get("specifications", {})`). -/
structure Product where
  product_name : Option String
  specifications : List (String × List (String × PyVal))
deriving DecidableEq

abbrev Contribs := List (String × PyVal)
abbrev FeatMap := List (String × Contribs)

/-- Flatten nested specifications:
`flat_key = f"<category> - <key>"` unless the category is literally
"other", in which case the bare key is used; repeated flat keys
overwrite. -/
def flattenSpecs (specs : List (String × List (String × PyVal))) : List (String × PyVal) :=
  specs.foldl (fun acc p =>
    p.2.foldl (fun acc2 kv =>
      upsertReplace (if p.1 ≠ "other" then p.1 ++ " - " ++ kv.1 else kv.1) kv.2 acc2) acc) []

/-- Display name: `product_data.get("product_name", f"Product (i+1)")`. -/
def productDisplayName (idx : Nat) (p : Product) : String :=
  p.product_name.getD ("Product " ++ toString (idx + 1))

/-- `all_features` dict: product name → flattened specifications. -/
def allFeatures (products : List Product) : List (String × List (String × PyVal)) :=
  products.enum.foldl (fun acc ip =>
    upsertReplace (productDisplayName ip.1 ip.2) (flattenSpecs ip.2.specifications) acc) []

/-- `categorized_features` dict: category → label → list of
(product name, value) contributions, appended in iteration order. -/
def categorizedFeatures (products : List Product) : List (String × FeatMap) :=
  (allFeatures products).foldl (fun acc pf =>
    pf.2.foldl (fun acc2 kv =>
      upsertWith (categorizeFeature kv.1) [] (fun fm =>
        upsertWith kv.1 [] (fun l => l ++ [(pf.1, kv.2)]) fm) acc2) acc) []

/-- `sim(seed, cand) >= self.similarity_threshold` with threshold 0.7. -/
def simOK (seed cand : String) : Bool :=
  decide (PyNum.le ⟨7, 10⟩ (calcSimilarity seed cand))

/-- Labels joining a cluster around `seed`: every key of the category
dict, in order, that is distinct from the seed, not yet processed, and
whose similarity to the seed reaches the 0.7 threshold. -/
def similarTo (fm : FeatMap) (processed : List String) (seed : String) : List String :=
  (fm.filter (fun p =>
    p.1 != seed && !(processed.contains p.1) && simOK seed p.1)).map Prod.fst

def contribCount (fm : FeatMap) (k : String) : Nat :=
  ((alistGet fm k).getD []).length

structure Cluster where
  canonical : String
  members : List String
deriving DecidableEq

/-- The greedy single pass of `match_features` within one category: each
not-yet-processed label in first-seen order seeds a cluster; the labels
similar to the seed join it and are marked processed, together with the
canonical label (the member with the most contributions, first such on
ties).  The seed itself is only marked processed when it is canonical. -/
def clustersAux (fm : FeatMap) : FeatMap → List String → List Cluster
  | [], _ => []
  | (k, _) :: rest, processed =>
    if processed.contains k then clustersAux fm rest processed
    else
      let sims := similarTo fm processed k
      let canonical := pyMaxBy natGtB (contribCount fm) k sims
      ⟨canonical, k :: sims⟩ :: clustersAux fm rest (processed ++ sims ++ [canonical])

def clusters (fm : FeatMap) : List Cluster := clustersAux fm fm []

/-- `merged_values`: contributions of all cluster members, concatenated
in member order. -/
def mergeCluster (fm : FeatMap) (c : Cluster) : Contribs :=
  c.members.foldl (fun acc k => acc ++ (alistGet fm k).getD []) []

/-- `product_dict` then `final_values`: group merged contributions by
product and keep the first value per product. -/
def firstPerProduct (merged : Contribs) : Contribs :=
  let pd := merged.foldl (fun d pv =>
    upsertWith pv.1 [] (fun l => l ++ [pv.2]) d) ([] : List (String × List PyVal))
  pd.map (fun p => (p.1, p.2.headD (PyVal.s "")))

/-- The twelve expected output categories, in order. -/
def expectedCategories : List String := featureCategories.map Prod.fst ++ ["other"]

/-- The write `matched_features[category][canonical_key] = final_values`
for one cluster: the outer lookup raises KeyError (`none`) when the
category key is absent. -/
def applyCluster (catFeats : String × FeatMap) (m : List (String × FeatMap)) (c : Cluster) :
    Option (List (String × FeatMap)) :=
  match alistGet m catFeats.1 with
  | none => none
  | some inner =>
    some (upsertReplace catFeats.1
      (upsertReplace c.canonical (firstPerProduct (mergeCluster catFeats.2 c)) inner) m)

/-- All cluster writes of one category, in emission order. -/
def applyCategory (macc : Option (List (String × FeatMap))) (catFeats : String × FeatMap) :
    Option (List (String × FeatMap)) :=
  (clusters catFeats.2).foldl (fun macc2 c => macc2.bind (fun m2 => applyCluster catFeats m2 c)) macc

/-- `FeatureMatcher.match_features`.  The empty product list returns the
empty dict.  Otherwise the result dict is initialised with the twelve
expected categories and every category of `categorized_features` is
processed in order. -/
def matchFeatures (products : List Product) : Option (List (String × FeatMap)) :=
  if products.isEmpty then some []
  else
    (categorizedFeatures products).foldl applyCategory
      (some (expectedCategories.map (fun c => (c, ([] : FeatMap)))))

/-! UnitConverter. -/

/-- `UnitConverter.conversion_factors`: per-category multipliers to the
base unit, with the unit keys in declaration order.  The source's float
literals are written as exact fractions (1/2.54 = 100/254, etc.). -/
def conversionFactors : List (String × List (String × PyNum)) := [
  ("storage", [("KB", ⟨1, 1024 * 1024⟩), ("MB", ⟨1, 1024⟩), ("GB", ⟨1, 1⟩), ("TB", ⟨1024, 1⟩)]),
  ("memory", [("MB", ⟨1, 1024⟩), ("GB", ⟨1, 1⟩)]),
  ("display", [("cm", ⟨100, 254⟩), ("mm", ⟨10, 254⟩), ("inch", ⟨1, 1⟩), ("\"", ⟨1, 1⟩)]),
  ("processor", [("MHz", ⟨1, 1000⟩), ("GHz", ⟨1, 1⟩)]),
  ("battery", [("mAh", ⟨1, 1⟩), ("Wh", ⟨270, 1⟩)]),
  ("weight", [("mg", ⟨1, 1000⟩), ("g", ⟨1, 1⟩), ("kg", ⟨1000, 1⟩), ("oz", ⟨2835, 100⟩), ("lb", ⟨45359, 100⟩)])]

/-- `UnitConverter.base_units`. -/
def baseUnits : List (String × String) := [
  ("storage", "GB"), ("memory", "GB"), ("display", "inch"), ("processor", "GHz"),
  ("battery", "mAh"), ("weight", "g"), ("resolution", "pixels"), ("refresh_rate", "Hz")]

/-- Maximal run of decimal digits at the head of the list. -/
def takeDigits : List Char → List Char × List Char
  | [] => ([], [])
  | c :: rest =>
    if c.isDigit then
      let p := takeDigits rest
      (c :: p.1, p.2)
    else ([], c :: rest)

def digitsVal (ds : List Char) : Nat :=
  ds.foldl (fun a c => a * 10 + (c.toNat - 48)) 0

/-- The float value of the matched group `<intPart>.<fracPart>`:
`intPart.fracPart` read as an exact fraction. -/
def numOfParts (intPart fracPart : List Char) : PyNum :=
  ⟨digitsVal intPart * 10 ^ fracPart.length + digitsVal fracPart, (10 : ℕ+) ^ fracPart.length⟩

/-- `\s*` is effectively a greedy skip here: none of the unit
alternatives begins with whitespace. -/
def skipSpaces (cs : List Char) : List Char := cs.dropWhile pyIsSpace

/-- Regex alternation over literal unit tokens: the first alternative
that is a prefix of the remaining input wins. -/
def matchAlt (units : List String) (cs : List Char) : Option String :=
  units.find? (fun u => headSeg u.toList cs)

/-- Maximal run of `[a-zA-Z]` at the head of the list. -/
def takeAlpha : List Char → List Char × List Char
  | [] => ([], [])
  | c :: rest =>
    if c.isAlpha then
      let p := takeAlpha rest
      (c :: p.1, p.2)
    else ([], c :: rest)

/-- One anchored attempt of `(\d+(?:\.\d+)?)\s*<tail>` at the head of
`cs`, where `tail` is an abstract suffix matcher.  The greedy optional
fraction is tried first and backtracked when the tail fails; the
maximal digit runs need no backtracking because no tail alternative
begins with a digit or a dot. -/
def tryNumThen {α : Type} (tailM : List Char → Option α) (cs : List Char) : Option (PyNum × α) :=
  let p := takeDigits cs
  if p.1.isEmpty then none
  else
    let withFrac : Option (PyNum × α) :=
      match p.2 with
      | '.' :: rest2 =>
        let q := takeDigits rest2
        if q.1.isEmpty then none
        else (tailM (skipSpaces q.2)).map (fun u => (numOfParts p.1 q.1, u))
      | _ => none
    match withFrac with
    | some r => some r
    | none => (tailM (skipSpaces p.2)).map (fun u => (numOfParts p.1 [], u))

/-- `re.search`: the leftmost start position at which the anchored
attempt succeeds wins. -/
def scanMatch {α : Type} (tailM : List Char → Option α) : List Char → Option (PyNum × α)
  | [] => none
  | c :: rest =>
    match tryNumThen tailM (c :: rest) with
    | some r => some r
    | none => scanMatch tailM rest

/-- `UnitConverter.extract_value_and_unit`.  For a category with a
conversion table, the compiled numeric+unit pattern is searched first,
then a bare-number fallback.  For any other category the generic
pattern `(\d+(?:\.\d+)?)\s*([a-zA-Z]+)` is the only attempt: it
requires trailing letters and has no bare-number fallback.  `none`
models the (None, None) result. -/
def extractValueAndUnit (valueStr : String) (category : String) : Option (PyNum × Option String) :=
  match alistGet conversionFactors category with
  | none =>
    (scanMatch (fun cs =>
      let p := takeAlpha cs
      if p.1.isEmpty then none else some (String.mk p.1)) valueStr.toList).map
      (fun r => (r.1, some r.2))
  | some units =>
    match scanMatch (matchAlt (units.map Prod.fst)) valueStr.toList with
    | some r => some (r.1, some r.2)
    | none =>
      match scanMatch (fun _ => some ()) valueStr.toList with
      | some r => some (r.1, none)
      | none => none

/-- `UnitConverter.convert_to_base_unit`: identity when the category or
unit is unknown, otherwise multiply by the factor and report the
declared base unit. -/
def convertToBaseUnit (value : PyNum) (unitName : String) (category : String) : PyNum × String :=
  match alistGet conversionFactors category with
  | none => (value, unitName)
  | some units =>
    match alistGet units unitName with
    | none => (value, unitName)
    | some factor => (value.mul factor, (alistGet baseUnits category).getD unitName)

/-- `UnitConverter.normalize_for_comparison`: extract then convert; a
missing unit is read as the category's base unit (empty string when the
category has none). -/
def normalizeForComparison (valueStr : String) (category : String) : Option (PyNum × String) :=
  match extractValueAndUnit valueStr category with
  | none => none
  | some (v, none) => some (v, (alistGet baseUnits category).getD "")
  | some (v, some u) => some (convertToBaseUnit v u category)

/-- `UnitConverter.compare_values`. -/
def compareValues (value1 value2 category : String) : Option (PyNum × PyNum × String) :=
  match normalizeForComparison value1 category, normalizeForComparison value2 category with
  | some n1, some n2 => some (n1.1, n2.1, n1.2)
  | _, _ => none

/-! MatrixGenerator. -/

/-- The stored `_comparison` annotation.  The `unit` field is the third
component of the chosen best tuple, exactly as the source stores
`best_product[2]` (the local override variable assigned "pixels" / "Hz"
is never read). -/
structure Annot where
  ctype : String
  best_product : String
  normalized_values : List (String × PyNum)
  unit : String
deriving DecidableEq

structure FeatRow where
  cells : List (String × PyVal)
  comparison : Option Annot
deriving DecidableEq

/-- The comparable values of a feature: the products whose value is a
string that normalizes, with the normalized value and its unit. -/
def comparableValues (category : String) (productValues : Contribs) : List (String × PyNum × String) :=
  productValues.filterMap (fun pv =>
    match pv.2 with
    | PyVal.s t => (normalizeForComparison t category).map (fun nu => (pv.1, nu.1, nu.2))
    | _ => none)

def higherBetterCats : List String := ["processor", "memory", "storage", "display", "graphics"]

/-- The `_comparison` computation of `generate_feature_matrix` for one
feature: requires more than one contribution and a category with a base
unit; the default policy comes from the category, the label-text
overrides for "resolution" and "refresh"+"rate" recompute the best
product as a maximum; the annotation is stored only when a best product
was chosen. -/
def genComparison (category featureKey : String) (productValues : Contribs) : Option Annot :=
  if productValues.length > 1 && (alistGet baseUnits category).isSome then
    match comparableValues category productValues with
    | [] => none
    | c0 :: crest =>
      if (c0 :: crest).length > 1 then
        let dp : Option (String × PyNum × String) × String :=
          if higherBetterCats.contains category then
            (some (pyMaxBy pyGtB (fun t => t.2.1) c0 crest), "higher_better")
          else if category = "weight" then
            (some (pyMinBy pyLtB (fun t => t.2.1) c0 crest), "lower_better")
          else (none, "neutral")
        let dp2 : Option (String × PyNum × String) × String :=
          if strContains "resolution" (pyToLower featureKey) then
            (some (pyMaxBy pyGtB (fun t => t.2.1) c0 crest), "higher_better")
          else if strContains "refresh" (pyToLower featureKey) && strContains "rate" (pyToLower featureKey) then
            (some (pyMaxBy pyGtB (fun t => t.2.1) c0 crest), "higher_better")
          else dp
        match dp2 with
        | (some best, ctype) =>
          some ⟨ctype, best.1,
            (c0 :: crest).foldl (fun d t => upsertReplace t.1 t.2.1 d) [], best.2.2⟩
        | (none, _) => none
      else none
  else none

/-- One feature entry of the matrix: the product → value dict plus the
optional annotation (stored in the source under the `_comparison` key
of the same dict; kept as a separate field here). -/
def genRow (category featureKey : String) (productValues : Contribs) : FeatRow :=
  ⟨productValues.foldl (fun acc pv => upsertReplace pv.1 pv.2 acc) [],
   genComparison category featureKey productValues⟩

/-- `MatrixGenerator.generate_feature_matrix`. -/
def generateFeatureMatrix (matched : List (String × FeatMap)) :
    List (String × List (String × FeatRow)) :=
  matched.map (fun cf => (cf.1, cf.2.map (fun f => (f.1, genRow cf.1 f.1 f.2))))

/-- Python `str.title()` for the ASCII category names: a letter is
uppercased after a non-letter and lowercased after a letter. -/
def pyTitle (s : String) : String :=
  (s.toList.foldl (fun acc c =>
    (acc.1 ++ [if c.isAlpha then (if acc.2 then c.toLower else c.toUpper) else c], c.isAlpha))
    (([] : List Char), false)).1 |> String.mk

/-- The cell value for one product: the stored value or the literal
"N/A", stringified and bolded via an f-string when the product is the
annotated best. -/
def renderCell (row : FeatRow) (product : String) : PyVal :=
  let value := (alistGet row.cells product).getD (PyVal.s "N/A")
  match row.comparison with
  | some comp =>
    if comp.best_product = product then PyVal.s ("**" ++ pyStr value ++ "**") else value
  | none => value

/-- Python `" | ".join(row)`: raises TypeError (modelled `none`) unless
every item is a string. -/
def pyJoin (sep : String) (items : List PyVal) : Option String :=
  if items.all (fun v => match v with | PyVal.s _ => true | PyVal.i _ => false) then
    some (String.intercalate sep (items.map pyStr))
  else none

def renderRow (products : List String) (featureKey : String) (row : FeatRow) : Option String :=
  (pyJoin " | " (PyVal.s featureKey :: products.map (renderCell row))).map
    (fun t => "| " ++ t ++ " |")

/-- `MatrixGenerator.generate_markdown_table`: one section per category
with at least one feature; `none` models the TypeError a non-string
cell raises inside the row join. -/
def generateMarkdownTable (matrix : List (String × List (String × FeatRow)))
    (products : List String) : Option String :=
  if matrix.isEmpty || products.isEmpty then some "No comparison data available."
  else
    (matrix.foldl (fun acc cat =>
      acc.bind (fun lines =>
        if cat.2.isEmpty then some lines
        else
          let header := "| " ++ String.intercalate " | " ("Feature" :: products) ++ " |"
          let sepRow := "| " ++
            String.intercalate " | " (List.replicate (products.length + 1) "---") ++ " |"
          (cat.2.foldl (fun acc2 f =>
            acc2.bind (fun ls => (renderRow products f.1 f.2).map (fun l => ls ++ [l])))
            (some (lines ++ ["### " ++ pyTitle cat.1, "", header, sepRow]))).map
            (fun ls => ls ++ [""])))
      (some ([] : List String))).map (String.intercalate "\n")

/-! MarkdownTemplateGenerator (default section list, as invoked by
`compare_products`). -/

def generateHeader (products : List String) (comparisonDate : String) : String :=
  String.intercalate "\n" [
    "# Product Comparison: " ++ String.intercalate ", " products,
    "",
    "*Comparison Date: " ++ comparisonDate ++ "*",
    "",
    "---",
    ""]

def generateIntroduction (products : List String) : String :=
  String.intercalate "\n" [
    "## Introduction",
    "",
    "This report provides an objective technical comparison of " ++
      toString products.length ++ " products: " ++ String.intercalate ", " products ++ ". ",
    "The comparison is based on verified specifications from multiple sources, with marketing claims filtered out to ensure objectivity.",
    ""]

def generateMethodology : String :=
  String.intercalate "\n" [
    "## Methodology",
    "",
    "This comparison was generated using an AI-powered product research system that:",
    "",
    "1. Collects product specifications from multiple authoritative sources",
    "2. Validates technical specifications against industry standards",
    "3. Filters out marketing language to focus on factual data",
    "4. Normalizes units and formats for accurate comparison",
    "5. Generates standardized comparison matrices",
    "",
    "All data has been processed to ensure accuracy and objectivity.",
    ""]

def generateComparisonMatrix (matrix : List (String × List (String × FeatRow)))
    (products : List String) : Option String :=
  (generateMarkdownTable matrix products).map (fun content =>
    String.intercalate "\n" [
      "## Comparison Matrix",
      "",
      "The following tables compare key features across all products:",
      "",
      content])

def generateFeatureHighlights (matrix : List (String × List (String × FeatRow))) : String :=
  let pts := matrix.foldl (fun acc cat =>
    cat.2.foldl (fun acc2 f =>
      match f.2.comparison with
      | some comp =>
        if comp.ctype = "higher_better" then
          acc2 ++ ["- **" ++ comp.best_product ++ "** has the highest " ++
            pyToLower f.1 ++ " (" ++ comp.unit ++ ")"]
        else if comp.ctype = "lower_better" then
          acc2 ++ ["- **" ++ comp.best_product ++ "** has the lowest " ++
            pyToLower f.1 ++ " (" ++ comp.unit ++ ")"]
        else acc2
      | none => acc2) acc) ([] : List String)
  String.intercalate "\n" (["## Feature Highlights", ""] ++
    (if pts.isEmpty then ["No specific highlights identified in the comparison."] else pts) ++ [""])

def generateConclusion : String :=
  String.intercalate "\n" [
    "## Conclusion",
    "",
    "This comparison provides an objective overview of the technical specifications for the compared products. ",
    "The data presented is factual and free from marketing claims, allowing for an unbiased assessment of each product\x27s capabilities.",
    "",
    "For specific use cases, consider which features are most important for your needs when making a decision.",
    ""]

/-- `MarkdownTemplateGenerator.generate_template` with the default
section list. -/
def generateTemplate (products : List String) (matrix : List (String × List (String × FeatRow)))
    (comparisonDate : String) : Option String :=
  (generateComparisonMatrix matrix products).map (fun matrixSection =>
    String.intercalate "\n" [
      generateHeader products comparisonDate,
      generateIntroduction products,
      generateMethodology,
      matrixSection,
      generateFeatureHighlights matrix,
      generateConclusion])

/-! ComparisonEngine. -/

inductive PyError where
  | keyError
  | typeError
  | dataProcessingError (productCount : Nat)
deriving DecidableEq

/-- `ComparisonEngine.compare_products` on a proper product list: run
matcher → matrix → template; any exception inside the pipeline is
caught and re-raised as a DataProcessingError whose details carry
`len(products_data)`. -/
def compareProducts (productsData : List Product) (comparisonDate : String) :
    Except PyError String :=
  let names := productsData.enum.map (fun ip => productDisplayName ip.1 ip.2)
  match matchFeatures productsData with
  | none => Except.error (PyError.dataProcessingError productsData.length)
  | some matched =>
    match generateTemplate names (generateFeatureMatrix matched) comparisonDate with
    | none => Except.error (PyError.dataProcessingError productsData.length)
    | some report => Except.ok report

/-- A dynamically typed `products_data` argument: either a proper list,
or a non-iterable object without a length (such as None or an int). -/
inductive PyInput where
  | listOf (products : List Product)
  | nonIterable
deriving DecidableEq

/-- `compare_products` under Python's dynamic typing.  A non-iterable
argument makes the pipeline raise TypeError; the except handler then
evaluates `len(products_data)` while building the DataProcessingError
details, which itself raises TypeError — so the TypeError, not the
DataProcessingError, propagates to the caller. -/
def compareProductsDyn (productsData : PyInput) (comparisonDate : String) :
    Except PyError String :=
  match productsData with
  | .listOf ps => compareProducts ps comparisonDate
  | .nonIterable => Except.error PyError.typeError

/-! Concrete inputs used by counterexamples and witnesses. -/

instance : DecidableEq (List (String × FeatMap)) := instDecidableEqList

instance : DecidableEq (List (String × FeatRow)) := instDecidableEqList

instance : DecidableEq (List (String × List (String × FeatRow))) := instDecidableEqList

/-- A record whose top-level specification category is outside the
engine's vocabulary. -/
def exThermal : Product := ⟨some "P", [("thermal", [("TDP", PyVal.s "10W")])]⟩

/-- A record with a non-string scalar specification value. -/
def exIntVal : Product := ⟨some "A", [("other", [("Foo", PyVal.i 5)])]⟩

def exMemA : Product := ⟨some "A", [("memory", [("RAM", PyVal.s "8GB")])]⟩

def exMemB : Product := ⟨some "B", [("memory", [("RAM", PyVal.s "12GB")])]⟩

def exMemContribs : Contribs := [("A", PyVal.s "8GB"), ("B", PyVal.s "12GB")]

def exResContribs : Contribs := [("A", PyVal.s "1920x1080"), ("B", PyVal.s "2560x1440")]

def exRefreshContribs : Contribs := [("A", PyVal.s "60Hz"), ("B", PyVal.s "144Hz")]

def exClusterFm : FeatMap :=
  [("RAM", [("A", PyVal.s "8GB")]), ("RAM Memory", [("B", PyVal.s "16GB")]),
   ("Storage", [("A", PyVal.s "1TB")])]

def exMemRow : FeatRow := genRow "memory" "memory - RAM" exMemContribs

def exMatched : List (String × FeatMap) := (matchFeatures [exMemA, exMemB]).getD []

def exMatrix : List (String × List (String × FeatRow)) := generateFeatureMatrix exMatched

def exMemoryRows : List (String × FeatRow) := (alistGet exMatrix "memory").getD []

def exMatchedMemRow : FeatRow := (alistGet exMemoryRows "memory - RAM").getD ⟨[], none⟩

def exMatchedMemAnnot : Annot := exMatchedMemRow.comparison.getD ⟨"", "", [], ""⟩

/-! Order facts for `PyNum`: value comparisons of fractions with
positive denominators. -/

theorem PyNum.den_int_pos (a : PyNum) : (0 : Int) < ((a.den : Nat) : Int) := by
  exact_mod_cast a.den.pos

theorem PyNum.le_rfl (a : PyNum) : a.le a := Int.le_refl _

theorem PyNum.le_of_not_lt {a b : PyNum} (h : ¬ a.lt b) : b.le a := not_lt.mp h

theorem PyNum.lt_imp_le {a b : PyNum} (h : a.lt b) : a.le b := Int.le_of_lt h

theorem PyNum.le_trans {a b c : PyNum} (h1 : a.le b) (h2 : b.le c) : a.le c := by
  have hb := b.den_int_pos
  unfold PyNum.le at h1 h2 ⊢
  have key : a.num * ((c.den : Nat) : Int) * ((b.den : Nat) : Int) ≤
      c.num * ((a.den : Nat) : Int) * ((b.den : Nat) : Int) := by
    nlinarith [mul_le_mul_of_nonneg_right h1 c.den_int_pos.le,
      mul_le_mul_of_nonneg_right h2 a.den_int_pos.le]
  exact le_of_mul_le_mul_right key hb

theorem PyNum.lt_le_trans {a b c : PyNum} (h1 : a.lt b) (h2 : b.le c) : a.lt c := by
  have hb := b.den_int_pos
  unfold PyNum.lt at h1 ⊢
  unfold PyNum.le at h2
  have key : a.num * ((c.den : Nat) : Int) * ((b.den : Nat) : Int) <
      c.num * ((a.den : Nat) : Int) * ((b.den : Nat) : Int) := by
    nlinarith [mul_lt_mul_of_pos_right h1 c.den_int_pos,
      mul_le_mul_of_nonneg_right h2 a.den_int_pos.le]
  exact lt_of_mul_lt_mul_right key hb.le

theorem PyNum.le_lt_trans {a b c : PyNum} (h1 : a.le b) (h2 : b.lt c) : a.lt c := by
  have hb := b.den_int_pos
  unfold PyNum.le at h1
  unfold PyNum.lt at h2 ⊢
  have key : a.num * ((c.den : Nat) : Int) * ((b.den : Nat) : Int) <
      c.num * ((a.den : Nat) : Int) * ((b.den : Nat) : Int) := by
    nlinarith [mul_le_mul_of_nonneg_right h1 c.den_int_pos.le,
      mul_lt_mul_of_pos_right h2 a.den_int_pos]
  exact lt_of_mul_lt_mul_right key hb.le

/-! Python `max` / `min` with a key: membership and the
first-maximum characterization. -/

theorem pyMaxBy_mem {α β : Type} (gtB : β → β → Bool) (f : α → β) :
    ∀ (l : List α) (x : α), pyMaxBy gtB f x l ∈ x :: l
  | [], x => by simp [pyMaxBy]
  | y :: ys, x => by
    simp only [pyMaxBy]
    by_cases h : gtB (f y) (f x) = true
    · simp only [h, if_true]
      have hm := pyMaxBy_mem gtB f ys y
      rcases List.mem_cons.mp hm with h1 | h1
      · exact List.mem_cons.mpr (Or.inr (by rw [h1]; exact List.mem_cons_self _ _))
      · exact List.mem_cons.mpr (Or.inr (List.mem_cons.mpr (Or.inr h1)))
    · simp only [Bool.not_eq_true] at h
      simp only [h, Bool.false_eq_true, if_false]
      have hm := pyMaxBy_mem gtB f ys x
      rcases List.mem_cons.mp hm with h1 | h1
      · exact List.mem_cons.mpr (Or.inl h1)
      · exact List.mem_cons.mpr (Or.inr (List.mem_cons.mpr (Or.inr h1)))

theorem pyMinBy_eq_pyMaxBy {α β : Type} (cB : β → β → Bool) (f : α → β) :
    ∀ (l : List α) (x : α), pyMinBy cB f x l = pyMaxBy cB f x l
  | [], _ => rfl
  | y :: ys, x => by
    simp only [pyMinBy, pyMaxBy]
    by_cases h : cB (f y) (f x) = true
    · simp only [h, if_true]; exact pyMinBy_eq_pyMaxBy cB f ys y
    · simp only [Bool.not_eq_true] at h
      simp only [h, Bool.false_eq_true, if_false]; exact pyMinBy_eq_pyMaxBy cB f ys x

/-- The element Python `max(key = f)` picks is the first element whose
key attains the maximum: every element's key is `R`-below the pick, and
every element strictly before the pick is `S`-strictly below it.
Stated for an abstract comparator `cB` with compatible relations `R`
(non-strict) and `S` (strict). -/
theorem pyPickBy_spec {α β : Type} (cB : β → β → Bool) (R S : β → β → Prop)
    (hRefl : ∀ u, R u u)
    (hFalse : ∀ u v, cB u v = false → R u v)
    (hTrue : ∀ u v, cB u v = true → S v u)
    (hRTrans : ∀ u v w, R u v → R v w → R u w)
    (hSR : ∀ u v w, S u v → R v w → S u w)
    (hRS : ∀ u v w, R u v → S v w → S u w)
    (hSsubR : ∀ u v, S u v → R u v)
    (f : α → β) :
    ∀ (l : List α) (x : α), ∃ pre post,
      x :: l = pre ++ pyMaxBy cB f x l :: post ∧
      (∀ y ∈ x :: l, R (f y) (f (pyMaxBy cB f x l))) ∧
      (∀ y ∈ pre, S (f y) (f (pyMaxBy cB f x l)))
  | [], x => by
    refine ⟨[], [], by simp [pyMaxBy], ?_, by simp⟩
    intro y hy
    simp only [pyMaxBy]
    rcases List.mem_cons.mp hy with h | h
    · rw [h]; exact hRefl _
    · exact absurd h (List.not_mem_nil y)
  | y :: ys, x => by
    by_cases h : cB (f y) (f x) = true
    · have hred : pyMaxBy cB f x (y :: ys) = pyMaxBy cB f y ys := by
        simp only [pyMaxBy, h, if_true]
      obtain ⟨pre, post, heq, hAll, hPre⟩ := pyPickBy_spec cB R S hRefl hFalse hTrue
        hRTrans hSR hRS hSsubR f ys y
      have hxr : S (f x) (f (pyMaxBy cB f y ys)) :=
        hSR _ _ _ (hTrue _ _ h) (hAll y (List.mem_cons_self _ _))
      refine ⟨x :: pre, post, ?_, ?_, ?_⟩
      · rw [hred, List.cons_append, ← heq]
      · intro z hz
        rw [hred]
        rcases List.mem_cons.mp hz with h1 | h1
        · rw [h1]; exact hSsubR _ _ hxr
        · exact hAll z h1
      · intro z hz
        rw [hred]
        rcases List.mem_cons.mp hz with h1 | h1
        · rw [h1]; exact hxr
        · exact hPre z h1
    · simp only [Bool.not_eq_true] at h
      have hred : pyMaxBy cB f x (y :: ys) = pyMaxBy cB f x ys := by
        simp only [pyMaxBy, h, Bool.false_eq_true, if_false]
      obtain ⟨pre, post, heq, hAll, hPre⟩ := pyPickBy_spec cB R S hRefl hFalse hTrue
        hRTrans hSR hRS hSsubR f ys x
      have hyx : R (f y) (f x) := hFalse _ _ h
      have hxr : R (f x) (f (pyMaxBy cB f x ys)) := hAll x (List.mem_cons_self _ _)
      cases pre with
      | nil =>
        simp only [List.nil_append] at heq
        have hx : x = pyMaxBy cB f x ys := (List.cons.injEq _ _ _ _).mp heq |>.1
        refine ⟨[], y :: ys, ?_, ?_, by simp⟩
        · rw [hred, List.nil_append, ← hx]
        · intro z hz
          rw [hred]
          rcases List.mem_cons.mp hz with h1 | h1
          · rw [h1]; exact hxr
          · rcases List.mem_cons.mp h1 with h2 | h2
            · rw [h2]; exact hRTrans _ _ _ hyx hxr
            · exact hAll z (List.mem_cons.mpr (Or.inr h2))
      | cons p ps =>
        simp only [List.cons_append] at heq
        have hx : x = p := (List.cons.injEq _ _ _ _).mp heq |>.1
        have hys : ys = ps ++ pyMaxBy cB f x ys :: post :=
          (List.cons.injEq _ _ _ _).mp heq |>.2
        have hxS : S (f x) (f (pyMaxBy cB f x ys)) := by
          have hp := hPre p (List.mem_cons_self _ _)
          rwa [← hx] at hp
        refine ⟨x :: y :: ps, post, ?_, ?_, ?_⟩
        · rw [hred]
          simp only [List.cons_append]
          rw [← hys]
        · intro z hz
          rw [hred]
          rcases List.mem_cons.mp hz with h1 | h1
          · rw [h1]; exact hxr
          · rcases List.mem_cons.mp h1 with h2 | h2
            · rw [h2]; exact hRTrans _ _ _ hyx hxr
            · exact hAll z (List.mem_cons.mpr (Or.inr h2))
        · intro z hz
          rw [hred]
          rcases List.mem_cons.mp hz with h1 | h1
          · rw [h1]; exact hxS
          · rcases List.mem_cons.mp h1 with h2 | h2
            · rw [h2]; exact hRS _ _ _ hyx hxS
            · exact hPre z (List.mem_cons.mpr (Or.inr h2))

/-- The stable-argmax characterization of Python `max` over float keys. -/
theorem pyMaxBy_pynum_spec {α : Type} (f : α → PyNum) (l : List α) (x : α) :
    ∃ pre post, x :: l = pre ++ pyMaxBy pyGtB f x l :: post ∧
      (∀ y ∈ x :: l, PyNum.le (f y) (f (pyMaxBy pyGtB f x l))) ∧
      (∀ y ∈ pre, PyNum.lt (f y) (f (pyMaxBy pyGtB f x l))) :=
  pyPickBy_spec pyGtB PyNum.le PyNum.lt
    PyNum.le_rfl
    (fun _ _ h => PyNum.le_of_not_lt (of_decide_eq_false h))
    (fun _ _ h => of_decide_eq_true h)
    (fun _ _ _ h1 h2 => PyNum.le_trans h1 h2)
    (fun _ _ _ h1 h2 => PyNum.lt_le_trans h1 h2)
    (fun _ _ _ h1 h2 => PyNum.le_lt_trans h1 h2)
    (fun _ _ h => PyNum.lt_imp_le h)
    f l x

/-- The stable-argmin characterization of Python `min` over float keys. -/
theorem pyMinBy_pynum_spec {α : Type} (f : α → PyNum) (l : List α) (x : α) :
    ∃ pre post, x :: l = pre ++ pyMinBy pyLtB f x l :: post ∧
      (∀ y ∈ x :: l, PyNum.le (f (pyMinBy pyLtB f x l)) (f y)) ∧
      (∀ y ∈ pre, PyNum.lt (f (pyMinBy pyLtB f x l)) (f y)) := by
  rw [pyMinBy_eq_pyMaxBy pyLtB f l x]
  exact pyPickBy_spec pyLtB (fun u v => PyNum.le v u) (fun u v => PyNum.lt v u)
    PyNum.le_rfl
    (fun _ _ h => PyNum.le_of_not_lt (of_decide_eq_false h))
    (fun _ _ h => of_decide_eq_true h)
    (fun _ _ _ h1 h2 => PyNum.le_trans h2 h1)
    (fun _ _ _ h1 h2 => PyNum.le_lt_trans h2 h1)
    (fun _ _ _ h1 h2 => PyNum.lt_le_trans h2 h1)
    (fun _ _ h => PyNum.lt_imp_le h)
    f l x

/-- C8: unit normalization round-trips through extraction and
conversion: normalize_for_comparison("1TB","storage") = (1024.0,"GB");
normalize_for_comparison("512MB","memory") = (0.5,"GB");
normalize_for_comparison("16.5cm","display") has unit "inch" and a
value within 0.01 of 6.5. -/
theorem claim_C8_unit_roundtrip :
    (normalizeForComparison "1TB" "storage").map (fun p => (p.1.toRat, p.2)) =
      some (1024, "GB") ∧
    (normalizeForComparison "512MB" "memory").map (fun p => (p.1.toRat, p.2)) =
      some (1 / 2, "GB") ∧
    normalizeForComparison "16.5cm" "display" = some (⟨16500, 2540⟩, "inch") ∧
    |(⟨16500, 2540⟩ : PyNum).toRat - 13 / 2| < 1 / 100 := by
  have h1 : normalizeForComparison "1TB" "storage" = some (⟨1024, 1⟩, "GB") := by decide
  have h2 : normalizeForComparison "512MB" "memory" = some (⟨512, 1024⟩, "GB") := by decide
  refine ⟨?_, ?_, by decide, ?_⟩
  · rw [h1]
    norm_num [PyNum.toRat]
  · rw [h2]
    norm_num [PyNum.toRat]
  · norm_num [PyNum.toRat]
    rw [abs_lt]
    constructor <;> norm_num

/-- C6 counterexample: for the unrecognized category "resolution" the
generic pattern requires trailing letters, so the bare-number input
"1920" yields total failure (None, None) instead of (1920.0, None). -/
theorem claim_C6_counterexample : extractValueAndUnit "1920" "resolution" = none := by decide

/-- C6 amended: for a category with a conversion table, a known unit
token after a number wins, a bare number without a matching unit yields
(number, None), and total failure yields (None, None); but for a
category without a table the generic numeric-plus-trailing-letters
pattern is the only attempt, so a successful extraction always carries
a unit and a bare number alone fails. -/
theorem claim_C6_amended :
    (∀ cat, alistGet conversionFactors cat = none →
      ∀ s n, extractValueAndUnit s cat ≠ some (n, none)) ∧
    extractValueAndUnit "8GB" "memory" = some (⟨8, 1⟩, some "GB") ∧
    extractValueAndUnit "1920x1080" "display" = some (⟨1920, 1⟩, none) ∧
    extractValueAndUnit "1920" "storage" = some (⟨1920, 1⟩, none) ∧
    extractValueAndUnit "abc" "display" = none := by
  refine ⟨?_, by decide, by decide, by decide, by decide⟩
  intro cat hcat s n h
  unfold extractValueAndUnit at h
  rw [hcat] at h
  rcases Option.map_eq_some'.mp h with ⟨r, _, hr⟩
  exact Option.noConfusion (congrArg Prod.snd hr)

/-- C6 amended witness: instantiated at the unrecognized category
"resolution" and the input "5x". -/
theorem claim_C6_amended_witness :
    extractValueAndUnit "5x" "resolution" ≠ some (⟨5, 1⟩, none) :=
  claim_C6_amended.1 "resolution" (by decide) "5x" ⟨5, 1⟩

/-- C3: the label-text overrides for "resolution" and "refresh"+"rate"
do set the policy to higher_better, but the stored unit field is
best_product[2] — the unit produced by normalization — because the
local variable assigned "pixels" / "Hz" is never read; for
display-category features the stored unit is "inch", contradicting the
claimed forced units. -/
theorem claim_C3_override_unit :
    genComparison "display" "Resolution" exResContribs =
      some ⟨"higher_better", "B", [("A", ⟨1920, 1⟩), ("B", ⟨2560, 1⟩)], "inch"⟩ ∧
    genComparison "display" "display - Refresh Rate" exRefreshContribs =
      some ⟨"higher_better", "B", [("A", ⟨60, 1⟩), ("B", ⟨144, 1⟩)], "inch"⟩ :=
  ⟨by decide, by decide⟩

/-- C2: with a proper list argument every pipeline exception is
re-raised as the data-processing failure carrying the product count,
but a non-iterable products argument raises TypeError inside the
pipeline and then again from len(products_data) inside the except
handler, so a TypeError — not the data-processing failure — propagates. -/
theorem claim_C2_nonIterable :
    compareProductsDyn PyInput.nonIterable "" = Except.error PyError.typeError ∧
    ∀ n : Nat,
      compareProductsDyn PyInput.nonIterable "" ≠ Except.error (PyError.dataProcessingError n) := by
  refine ⟨rfl, ?_⟩
  intro n h
  simp only [compareProductsDyn, Except.error.injEq] at h
  exact PyError.noConfusion h

/-- C9: compare_products is a pure function of the product list and the
comparison date: two runs on equal inputs produce equal (byte-identical)
markdown strings.  The embedding is state-free because the source
pipeline reads no mutable or global state. -/
theorem claim_C9_deterministic (ps1 ps2 : List Product) (d1 d2 : String)
    (h1 : ps1 = ps2) (h2 : d1 = d2) :
    compareProducts ps1 d1 = compareProducts ps2 d2 := by
  rw [h1, h2]

/-- C9 witness: two runs on an identical concrete input agree. -/
theorem claim_C9_deterministic_witness :
    compareProducts [exMemA, exMemB] "2024-01-01" = compareProducts [exMemA, exMemB] "2024-01-01" :=
  claim_C9_deterministic [exMemA, exMemB] [exMemA, exMemB] "2024-01-01" "2024-01-01" rfl rfl

/-- C1 counterexample: a top-level specification category outside the
vocabulary ("thermal") makes match_features raise KeyError, and the
empty product list returns the empty dict rather than the
twelve-category map. -/
theorem claim_C1_counterexample :
    matchFeatures [exThermal] = none ∧
    matchFeatures ([] : List Product) = some [] ∧
    ([] : List (String × FeatMap)).map Prod.fst ≠ expectedCategories :=
  ⟨rfl, rfl, by decide⟩

/-- Inversion for a stored comparison annotation: the comparable list
is non-trivial, the stored normalized values are its dict form, and the
stored best/unit come either from the Python `max` (policy
higher_better) or — only in the weight category — from the Python `min`
(policy lower_better). -/
theorem genComparison_inv (cat key : String) (pv : Contribs) (a : Annot)
    (h : genComparison cat key pv = some a) :
    ∃ c0 crest, comparableValues cat pv = c0 :: crest ∧
      a.normalized_values =
        (c0 :: crest).foldl (fun d t => upsertReplace t.1 t.2.1 d) [] ∧
      ((a.ctype = "higher_better" ∧
          a.best_product = (pyMaxBy pyGtB (fun t => t.2.1) c0 crest).1 ∧
          a.unit = (pyMaxBy pyGtB (fun t => t.2.1) c0 crest).2.2) ∨
       (a.ctype = "lower_better" ∧ cat = "weight" ∧
          a.best_product = (pyMinBy pyLtB (fun t => t.2.1) c0 crest).1 ∧
          a.unit = (pyMinBy pyLtB (fun t => t.2.1) c0 crest).2.2)) := by
  unfold genComparison at h
  by_cases h0 : (pv.length > 1 && (alistGet baseUnits cat).isSome) = true
  · rw [if_pos h0] at h
    rcases hcv : comparableValues cat pv with _ | ⟨c0, crest⟩ <;> rw [hcv] at h
    · exact Option.noConfusion h
    · dsimp only at h
      refine ⟨c0, crest, rfl, ?_⟩
      split_ifs at h with hlen hres href hhi hw
      · obtain rfl := (Option.some.inj h).symm
        exact ⟨rfl, Or.inl ⟨rfl, rfl, rfl⟩⟩
      · obtain rfl := (Option.some.inj h).symm
        exact ⟨rfl, Or.inl ⟨rfl, rfl, rfl⟩⟩
      · obtain rfl := (Option.some.inj h).symm
        exact ⟨rfl, Or.inl ⟨rfl, rfl, rfl⟩⟩
      · obtain rfl := (Option.some.inj h).symm
        exact ⟨rfl, Or.inr ⟨rfl, hw, rfl, rfl⟩⟩
  · rw [if_neg h0] at h
    exact Option.noConfusion h

/-- C7: compare_values("8GB","12GB","memory") = (8.0, 12.0, "GB"); in
the matrix built by the full pipeline from a memory feature reporting
"8GB" and "12GB", the product reporting "12GB" is best_product with
policy higher_better; and in general the stored best product is the
stable argmax (higher_better) or argmin (lower_better) over the
normalized comparable values, ties broken by first occurrence. -/
theorem claim_C7_best_product :
    (compareValues "8GB" "12GB" "memory").map (fun t => (t.1.toRat, t.2.1.toRat, t.2.2)) =
      some (8, 12, "GB") ∧
    exMatchedMemRow.comparison = some exMatchedMemAnnot ∧
    exMatchedMemAnnot.best_product = "B" ∧
    exMatchedMemAnnot.ctype = "higher_better" ∧
    (∀ cat key pv a, genComparison cat key pv = some a →
      ((a.ctype = "higher_better" → ∃ pre e post,
          comparableValues cat pv = pre ++ e :: post ∧
          a.best_product = e.1 ∧ a.unit = e.2.2 ∧
          (∀ y ∈ comparableValues cat pv, PyNum.le y.2.1 e.2.1) ∧
          (∀ y ∈ pre, PyNum.lt y.2.1 e.2.1)) ∧
       (a.ctype = "lower_better" → ∃ pre e post,
          comparableValues cat pv = pre ++ e :: post ∧
          a.best_product = e.1 ∧ a.unit = e.2.2 ∧
          (∀ y ∈ comparableValues cat pv, PyNum.le e.2.1 y.2.1) ∧
          (∀ y ∈ pre, PyNum.lt e.2.1 y.2.1)))) := by
  have hcv : compareValues "8GB" "12GB" "memory" = some (⟨8, 1⟩, ⟨12, 1⟩, "GB") := by decide
  refine ⟨by rw [hcv]; norm_num [PyNum.toRat], by decide, by decide, by decide, ?_⟩
  intro cat key pv a h
  obtain ⟨c0, crest, hc, _, hcase⟩ := genComparison_inv cat key pv a h
  constructor
  · intro hct
    rcases hcase with ⟨_, hbest, hunit⟩ | ⟨hlow, _⟩
    · obtain ⟨pre, post, heq, hAll, hPre⟩ := pyMaxBy_pynum_spec (fun t => t.2.1) crest c0
      refine ⟨pre, pyMaxBy pyGtB (fun t => t.2.1) c0 crest, post, ?_, hbest, hunit, ?_, ?_⟩
      · rw [hc, heq]
      · intro y hy; rw [hc] at hy; exact hAll y hy
      · exact hPre
    · rw [hlow] at hct
      exact absurd hct (by decide)
  · intro hct
    rcases hcase with ⟨hhi, _⟩ | ⟨_, _, hbest, hunit⟩
    · rw [hhi] at hct
      exact absurd hct (by decide)
    · obtain ⟨pre, post, heq, hAll, hPre⟩ := pyMinBy_pynum_spec (fun t => t.2.1) crest c0
      refine ⟨pre, pyMinBy pyLtB (fun t => t.2.1) c0 crest, post, ?_, hbest, hunit, ?_, ?_⟩
      · rw [hc, heq]
      · intro y hy; rw [hc] at hy; exact hAll y hy
      · exact hPre

/-- C7 witness: the general argmax clause instantiated at the concrete
memory feature, with both hypotheses discharged by evaluation. -/
theorem claim_C7_best_product_witness :
    ∃ pre e post, comparableValues "memory" exMemContribs = pre ++ e :: post ∧
      ("B" : String) = e.1 ∧ ("GB" : String) = e.2.2 ∧
      (∀ y ∈ comparableValues "memory" exMemContribs, PyNum.le y.2.1 e.2.1) ∧
      (∀ y ∈ pre, PyNum.lt y.2.1 e.2.1) :=
  (claim_C7_best_product.2.2.2.2 "memory" "memory - RAM" exMemContribs
    ⟨"higher_better", "B", [("A", ⟨8, 1⟩), ("B", ⟨12, 1⟩)], "GB"⟩ (by decide)).1 (by decide)

/-- C5 counterexample: a non-string scalar specification value reaches
a table cell unbolded, the row join raises TypeError, and
compare_products raises the data-processing failure instead of
returning a report. -/
theorem claim_C5_counterexample :
    compareProducts [exIntVal] "" = Except.error (PyError.dataProcessingError 1) := rfl

/-! Association-list facts used by the remaining claims. -/

theorem mem_pairs_upsertReplace {α : Type} {k : String} {v : α} :
    ∀ {l : List (String × α)} {j : String} {u : α},
      (j, u) ∈ upsertReplace k v l → (j = k ∧ u = v) ∨ (j, u) ∈ l
  | [], j, u, h => by
    simp only [upsertReplace, List.mem_singleton] at h
    exact Or.inl ⟨congrArg Prod.fst h, congrArg Prod.snd h⟩
  | (k0, v0) :: rest, j, u, h => by
    simp only [upsertReplace] at h
    by_cases he : k0 = k
    · rw [if_pos he] at h
      rcases List.mem_cons.mp h with h1 | h1
      · exact Or.inl ⟨(congrArg Prod.fst h1).trans he, congrArg Prod.snd h1⟩
      · exact Or.inr (List.mem_cons.mpr (Or.inr h1))
    · rw [if_neg he] at h
      rcases List.mem_cons.mp h with h1 | h1
      · exact Or.inr (List.mem_cons.mpr (Or.inl h1))
      · rcases mem_pairs_upsertReplace h1 with h2 | h2
        · exact Or.inl h2
        · exact Or.inr (List.mem_cons.mpr (Or.inr h2))

theorem mem_keys_upsertReplace {α : Type} {k : String} {v : α} :
    ∀ {l : List (String × α)} {j : String},
      j ∈ (upsertReplace k v l).map Prod.fst → j = k ∨ j ∈ l.map Prod.fst := by
  intro l j h
  obtain ⟨⟨j', u⟩, hmem, rfl⟩ := List.mem_map.mp h
  rcases mem_pairs_upsertReplace hmem with ⟨h1, _⟩ | h1
  · exact Or.inl h1
  · exact Or.inr (List.mem_map.mpr ⟨(j', u), h1, rfl⟩)

theorem keys_upsertReplace_of_mem {α : Type} (v : α) :
    ∀ (l : List (String × α)) (k : String), k ∈ l.map Prod.fst →
      (upsertReplace k v l).map Prod.fst = l.map Prod.fst
  | [], k, h => by simp at h
  | (k0, v0) :: rest, k, h => by
    simp only [upsertReplace]
    by_cases he : k0 = k
    · rw [if_pos he]
      simp
    · rw [if_neg he]
      have hk : k ∈ rest.map Prod.fst := by
        simp only [List.map_cons, List.mem_cons] at h
        rcases h with h | h
        · exact absurd h.symm he
        · exact h
      simp only [List.map_cons]
      rw [keys_upsertReplace_of_mem v rest k hk]

theorem alistGet_isSome_iff {α : Type} (l : List (String × α)) (k : String) :
    (alistGet l k).isSome ↔ k ∈ l.map Prod.fst := by
  unfold alistGet
  rw [Option.isSome_map']
  rw [List.find?_isSome]
  constructor
  · rintro ⟨x, hx, hpx⟩
    exact List.mem_map.mpr ⟨x, hx, of_decide_eq_true hpx⟩
  · intro h
    obtain ⟨x, hx, hpx⟩ := List.mem_map.mp h
    exact ⟨x, hx, decide_eq_true hpx⟩

theorem alistGet_eq_none_of_not_mem {α : Type} {l : List (String × α)} {k : String}
    (h : k ∉ l.map Prod.fst) : alistGet l k = none := by
  by_contra hne
  exact h ((alistGet_isSome_iff l k).mp (Option.ne_none_iff_isSome.mp hne))

theorem cells_fold_sub {α : Type} :
    ∀ (l : List (String × α)) (init : List (String × α)) {j : String} {u : α},
      (j, u) ∈ l.foldl (fun acc pv => upsertReplace pv.1 pv.2 acc) init →
      (j, u) ∈ init ∨ (j, u) ∈ l
  | [], init, j, u, h => Or.inl h
  | (k0, v0) :: rest, init, j, u, h => by
    rcases cells_fold_sub rest (upsertReplace k0 v0 init) h with h1 | h1
    · rcases mem_pairs_upsertReplace h1 with ⟨h2, h3⟩ | h2
      · exact Or.inr (List.mem_cons.mpr (Or.inl (by rw [h2, h3])))
      · exact Or.inl h2
    · exact Or.inr (List.mem_cons.mpr (Or.inr h1))

theorem norm_fold_keys_sub :
    ∀ (l : List (String × PyNum × String)) (init : List (String × PyNum)) {j : String},
      j ∈ (l.foldl (fun d t => upsertReplace t.1 t.2.1 d) init).map Prod.fst →
      j ∈ init.map Prod.fst ∨ j ∈ l.map Prod.fst
  | [], init, j, h => Or.inl h
  | t0 :: rest, init, j, h => by
    rcases norm_fold_keys_sub rest (upsertReplace t0.1 t0.2.1 init) h with h1 | h1
    · rcases mem_keys_upsertReplace h1 with h2 | h2
      · exact Or.inr (by rw [h2]; exact List.mem_cons.mpr (Or.inl rfl))
      · exact Or.inl h2
    · exact Or.inr (List.mem_cons.mpr (Or.inr h1))

/-- C5 amended: non-string scalar values pass through matching and
matrix construction unmodified (every matrix cell value is one of the
product's raw values), are excluded from annotation computation without
raising (a product named in an annotation's normalized values always
contributed a string value), and a product absent from a feature's
contributions renders as the literal "N/A" cell; but a non-string value
that reaches a rendered table cell unbolded makes the row join raise
TypeError, so compare_products re-raises the data-processing failure
instead of returning a report. -/
theorem claim_C5_amended :
    (∀ cat key pv a p, genComparison cat key pv = some a →
        p ∈ a.normalized_values.map Prod.fst → ∃ t, (p, PyVal.s t) ∈ pv) ∧
    (∀ cat key pv p v, (p, v) ∈ (genRow cat key pv).cells → (p, v) ∈ pv) ∧
    (∀ row p, p ∉ row.cells.map Prod.fst →
        (∀ a, row.comparison = some a → a.best_product ≠ p) →
        renderCell row p = PyVal.s "N/A") ∧
    compareProducts [exIntVal] "" = Except.error (PyError.dataProcessingError 1) := by
  refine ⟨?_, ?_, ?_, rfl⟩
  · intro cat key pv a p h hp
    obtain ⟨c0, crest, hc, hnorm, _⟩ := genComparison_inv cat key pv a h
    rw [hnorm] at hp
    rcases norm_fold_keys_sub (c0 :: crest) [] hp with h1 | h1
    · simp at h1
    · rw [← hc] at h1
      obtain ⟨y, hy, hy1⟩ := List.mem_map.mp h1
      obtain ⟨x, hx, hgx⟩ := List.mem_filterMap.mp hy
      rcases hxv : x.2 with t | n
      · rw [hxv] at hgx
        dsimp only at hgx
        refine ⟨t, ?_⟩
        obtain ⟨nu, _, hval⟩ := Option.map_eq_some'.mp hgx
        have hx1 : x.1 = p := by rw [← hy1, ← hval]
        rw [← hx1, ← hxv]
        exact hx
      · rw [hxv] at hgx
        dsimp only at hgx
        exact Option.noConfusion hgx
  · intro cat key pv p v h
    rcases cells_fold_sub pv [] h with h1 | h1
    · simp at h1
    · exact h1
  · intro row p hcells hbest
    unfold renderCell
    rw [alistGet_eq_none_of_not_mem hcells]
    rcases hcomp : row.comparison with _ | a
    · rfl
    · simp only [Option.getD_none]
      rw [if_neg]
      exact fun he => hbest a hcomp he

/-- C5 amended witness: the "N/A" clause instantiated at the concrete
memory feature row and an absent product. -/
theorem claim_C5_amended_witness : renderCell exMemRow "C" = PyVal.s "N/A" :=
  claim_C5_amended.2.2.1 exMemRow "C" (by decide)
    (fun a ha => by
      have hc : exMemRow.comparison =
          some ⟨"higher_better", "B", [("A", ⟨8, 1⟩), ("B", ⟨12, 1⟩)], "GB"⟩ := by decide
      rw [hc] at ha
      obtain rfl := (Option.some.inj ha).symm
      decide)

/-! Key preservation through the match_features writes, for C1 and C10. -/

theorem applyCluster_some_keys {cf : String × FeatMap} {m m' : List (String × FeatMap)}
    {c : Cluster} (h : applyCluster cf m c = some m') :
    m'.map Prod.fst = m.map Prod.fst := by
  unfold applyCluster at h
  rcases hg : alistGet m cf.1 with _ | inner
  · rw [hg] at h; exact Option.noConfusion h
  · rw [hg] at h
    obtain rfl := (Option.some.inj h).symm
    exact keys_upsertReplace_of_mem _ m cf.1
      ((alistGet_isSome_iff m cf.1).mp (by rw [hg]; rfl))

theorem applyCluster_isSome_of_mem {cf : String × FeatMap} {m : List (String × FeatMap)}
    (c : Cluster) (h : cf.1 ∈ m.map Prod.fst) : (applyCluster cf m c).isSome := by
  unfold applyCluster
  rcases hg : alistGet m cf.1 with _ | inner
  · exact absurd ((alistGet_isSome_iff m cf.1).mpr h) (by rw [hg]; simp)
  · rfl

theorem foldClusters_none (cf : String × FeatMap) :
    ∀ (cs : List Cluster),
      cs.foldl (fun macc2 c => macc2.bind (fun m2 => applyCluster cf m2 c)) none = none
  | [] => rfl
  | c :: cs => by
    simp only [List.foldl_cons, Option.none_bind]
    exact foldClusters_none cf cs

theorem foldClusters_some_keys (cf : String × FeatMap) :
    ∀ (cs : List Cluster) (m m' : List (String × FeatMap)),
      cs.foldl (fun macc2 c => macc2.bind (fun m2 => applyCluster cf m2 c)) (some m) = some m' →
      m'.map Prod.fst = m.map Prod.fst
  | [], m, m', h => by rw [(Option.some.inj h).symm]
  | c :: cs, m, m', h => by
    simp only [List.foldl_cons, Option.some_bind] at h
    rcases ha : applyCluster cf m c with _ | m1
    · rw [ha, foldClusters_none cf cs] at h
      exact Option.noConfusion h
    · rw [ha] at h
      rw [foldClusters_some_keys cf cs m1 m' h]
      exact applyCluster_some_keys ha

theorem foldClusters_isSome (cf : String × FeatMap) :
    ∀ (cs : List Cluster) (m : List (String × FeatMap)), cf.1 ∈ m.map Prod.fst →
      ∃ m', cs.foldl (fun macc2 c => macc2.bind (fun m2 => applyCluster cf m2 c)) (some m) = some m' ∧
        m'.map Prod.fst = m.map Prod.fst
  | [], m, _ => ⟨m, rfl, rfl⟩
  | c :: cs, m, h => by
    simp only [List.foldl_cons, Option.some_bind]
    rcases ha : applyCluster cf m c with _ | m1
    · exact absurd (applyCluster_isSome_of_mem c h) (by rw [ha]; simp)
    · have hk1 : m1.map Prod.fst = m.map Prod.fst := applyCluster_some_keys ha
      obtain ⟨m', hfold, hk⟩ := foldClusters_isSome cf cs m1 (by rw [hk1]; exact h)
      exact ⟨m', hfold, hk.trans hk1⟩

theorem applyCategory_none (cf : String × FeatMap) : applyCategory none cf = none :=
  foldClusters_none cf (clusters cf.2)

theorem applyCategory_some_keys {cf : String × FeatMap} {m m' : List (String × FeatMap)}
    (h : applyCategory (some m) cf = some m') : m'.map Prod.fst = m.map Prod.fst :=
  foldClusters_some_keys cf (clusters cf.2) m m' h

theorem applyCategory_isSome {cf : String × FeatMap} {m : List (String × FeatMap)}
    (h : cf.1 ∈ m.map Prod.fst) :
    ∃ m', applyCategory (some m) cf = some m' ∧ m'.map Prod.fst = m.map Prod.fst :=
  foldClusters_isSome cf (clusters cf.2) m h

theorem foldCategories_none :
    ∀ (cats : List (String × FeatMap)), cats.foldl applyCategory none = none
  | [] => rfl
  | cf :: cats => by
    simp only [List.foldl_cons, applyCategory_none]
    exact foldCategories_none cats

theorem foldCategories_some_keys :
    ∀ (cats : List (String × FeatMap)) (m m' : List (String × FeatMap)),
      cats.foldl applyCategory (some m) = some m' → m'.map Prod.fst = m.map Prod.fst
  | [], m, m', h => by rw [(Option.some.inj h).symm]
  | cf :: cats, m, m', h => by
    simp only [List.foldl_cons] at h
    rcases ha : applyCategory (some m) cf with _ | m1
    · rw [ha, foldCategories_none cats] at h
      exact Option.noConfusion h
    · rw [ha] at h
      rw [foldCategories_some_keys cats m1 m' h]
      exact applyCategory_some_keys ha

theorem foldCategories_isSome :
    ∀ (cats : List (String × FeatMap)) (m : List (String × FeatMap)),
      (∀ cf ∈ cats, cf.1 ∈ m.map Prod.fst) →
      ∃ m', cats.foldl applyCategory (some m) = some m' ∧ m'.map Prod.fst = m.map Prod.fst
  | [], m, _ => ⟨m, rfl, rfl⟩
  | cf :: cats, m, h => by
    simp only [List.foldl_cons]
    obtain ⟨m1, ha, hk1⟩ := applyCategory_isSome (h cf (List.mem_cons_self _ _))
    rw [ha]
    obtain ⟨m', hfold, hk⟩ := foldCategories_isSome cats m1
      (fun cf' hcf' => by rw [hk1]; exact h cf' (List.mem_cons.mpr (Or.inr hcf')))
    exact ⟨m', hfold, hk.trans hk1⟩

/-- C1 amended: the empty product list returns the empty dict; for every
non-empty product list all of whose categorized feature groups fall in
the twelve expected categories, match_features returns without raising
and the key set of its result is exactly the twelve expected categories
in order. -/
theorem claim_C1_amended :
    matchFeatures ([] : List Product) = some [] ∧
    ∀ products, products ≠ [] →
      (∀ cat ∈ (categorizedFeatures products).map Prod.fst, cat ∈ expectedCategories) →
      ∃ m, matchFeatures products = some m ∧ m.map Prod.fst = expectedCategories := by
  refine ⟨rfl, ?_⟩
  intro products hne hcats
  unfold matchFeatures
  have hie : products.isEmpty = false := by
    rcases products with _ | ⟨p, ps⟩
    · exact absurd rfl hne
    · rfl
  rw [hie]
  simp only [Bool.false_eq_true, if_false]
  have hinit : (expectedCategories.map (fun c => (c, ([] : FeatMap)))).map Prod.fst =
      expectedCategories := by
    rw [List.map_map]
    exact List.map_id expectedCategories
  obtain ⟨m, hfold, hk⟩ := foldCategories_isSome (categorizedFeatures products)
    (expectedCategories.map (fun c => (c, ([] : FeatMap))))
    (fun cf hcf => by
      rw [hinit]
      exact hcats cf.1 (List.mem_map.mpr ⟨cf, hcf, rfl⟩))
  exact ⟨m, hfold, hk.trans hinit⟩

/-- C1 amended witness: instantiated at a one-product list whose single
flattened label categorizes into "memory". -/
theorem claim_C1_amended_witness :
    ∃ m, matchFeatures [exMemA] = some m ∧ m.map Prod.fst = expectedCategories :=
  claim_C1_amended.2 [exMemA] (by simp) (by decide)

/-- The key set of a successful match_features result: empty for the
empty input, otherwise exactly the twelve expected categories. -/
theorem matchFeatures_keys {products : List Product} {m : List (String × FeatMap)}
    (h : matchFeatures products = some m) :
    m = [] ∨ m.map Prod.fst = expectedCategories := by
  unfold matchFeatures at h
  rcases hie : products.isEmpty with _ | _
  · rw [hie] at h
    simp only [Bool.false_eq_true, if_false] at h
    right
    have hk := foldCategories_some_keys (categorizedFeatures products) _ m h
    rw [hk, List.map_map]
    exact List.map_id expectedCategories
  · rw [hie] at h
    simp only [if_true] at h
    exact Or.inl (Option.some.inj h).symm

/-- A stored lower_better annotation can only arise in the weight
category. -/
theorem genComparison_lower_cat {cat key : String} {pv : Contribs} {a : Annot}
    (h : genComparison cat key pv = some a) (hl : a.ctype = "lower_better") :
    cat = "weight" := by
  obtain ⟨c0, crest, _, _, hcase⟩ := genComparison_inv cat key pv a h
  rcases hcase with ⟨hh, _⟩ | ⟨_, hw, _⟩
  · rw [hh] at hl
    exact absurd hl (by decide)
  · exact hw

/-- C10: through the full pipeline no stored annotation ever has the
lower_better policy: a successful match_features only emits the twelve
expected categories, "weight" is not among them, and the matrix
builder's weight branch is the only source of lower_better. -/
theorem claim_C10_no_lower_better :
    ∀ products m, matchFeatures products = some m →
      ∀ cf ∈ generateFeatureMatrix m, ∀ f ∈ cf.2, ∀ a, f.2.comparison = some a →
        a.ctype ≠ "lower_better" := by
  intro products m hm cf hcf f hf a ha hlow
  unfold generateFeatureMatrix at hcf
  obtain ⟨⟨cat, fm⟩, hmem, rfl⟩ := List.mem_map.mp hcf
  obtain ⟨⟨label, contribs⟩, hfm, rfl⟩ := List.mem_map.mp hf
  have hcat : cat = "weight" := genComparison_lower_cat ha hlow
  have hkm : cat ∈ m.map Prod.fst := List.mem_map.mpr ⟨(cat, fm), hmem, rfl⟩
  rcases matchFeatures_keys hm with rfl | hkeys
  · simp at hkm
  · rw [hkeys, hcat] at hkm
    exact absurd hkm (by decide)

/-- C10 witness: instantiated at the two-product memory pipeline, whose
single annotation indeed is not lower_better. -/
theorem claim_C10_no_lower_better_witness : exMatchedMemAnnot.ctype ≠ "lower_better" :=
  claim_C10_no_lower_better [exMemA, exMemB] exMatched (by decide)
    ("memory", exMemoryRows) (by decide)
    ("memory - RAM", exMatchedMemRow) (by decide)
    exMatchedMemAnnot (by decide)

/-! The greedy clustering pass (C4): the similarity test is symmetric,
so the emitted clusters partition the category's labels. -/

theorem calcSimilarity_comm (a b : String) : calcSimilarity a b = calcSimilarity b a := by
  unfold calcSimilarity
  dsimp only
  by_cases h1 : pyToLower a = pyToLower b
  · rw [if_pos h1, if_pos h1.symm]
  · rw [if_neg h1, if_neg (fun h : pyToLower b = pyToLower a => h1 h.symm)]
    by_cases h2 : (strContains (pyToLower a) (pyToLower b) ||
        strContains (pyToLower b) (pyToLower a)) = true
    · rw [if_pos h2, if_pos (show (strContains (pyToLower b) (pyToLower a) ||
        strContains (pyToLower a) (pyToLower b)) = true by rwa [Bool.or_comm] at h2)]
    · rw [if_neg h2, if_neg (show ¬ (strContains (pyToLower b) (pyToLower a) ||
        strContains (pyToLower a) (pyToLower b)) = true from
          fun hh => h2 (by rwa [Bool.or_comm] at hh))]
      by_cases h3 : (pyWords (pyToLower a)).toFinset = ∅ ∨ (pyWords (pyToLower b)).toFinset = ∅
      · rw [if_pos h3, if_pos (Or.symm h3)]
      · rw [if_neg h3, if_neg (fun hh => h3 (Or.symm hh))]
        rw [Finset.union_comm ((pyWords (pyToLower b)).toFinset),
          Finset.inter_comm ((pyWords (pyToLower b)).toFinset)]

theorem simOK_comm (s c : String) : simOK s c = simOK c s := by
  unfold simOK
  rw [calcSimilarity_comm]

theorem str_contains_iff {l : List String} {a : String} : l.contains a = true ↔ a ∈ l :=
  List.elem_iff

theorem str_contains_false {l : List String} {a : String} (h : a ∉ l) : l.contains a = false := by
  cases hb : l.contains a
  · rfl
  · exact absurd (str_contains_iff.mp hb) h

theorem mem_similarTo {fm : FeatMap} {processed : List String} {seed j : String} :
    j ∈ similarTo fm processed seed ↔
      (j ∈ fm.map Prod.fst ∧ j ≠ seed ∧ j ∉ processed ∧ simOK seed j = true) := by
  unfold similarTo
  constructor
  · intro h
    obtain ⟨pr, hmem, rfl⟩ := List.mem_map.mp h
    obtain ⟨hin, hcond⟩ := List.mem_filter.mp hmem
    rw [Bool.and_eq_true, Bool.and_eq_true] at hcond
    obtain ⟨⟨hne, hnp⟩, hsim⟩ := hcond
    refine ⟨List.mem_map.mpr ⟨pr, hin, rfl⟩, bne_iff_ne.mp hne, ?_, hsim⟩
    intro hc
    rw [Bool.not_eq_true'] at hnp
    rw [str_contains_iff.mpr hc] at hnp
    exact Bool.noConfusion hnp
  · rintro ⟨hmem, hne, hnp, hsim⟩
    obtain ⟨pr, hin, rfl⟩ := List.mem_map.mp hmem
    refine List.mem_map.mpr ⟨pr, List.mem_filter.mpr ⟨hin, ?_⟩, rfl⟩
    rw [Bool.and_eq_true, Bool.and_eq_true]
    refine ⟨⟨bne_iff_ne.mpr hne, ?_⟩, hsim⟩
    rw [Bool.not_eq_true']
    exact str_contains_false hnp

theorem clustersAux_cons_skip {fm : FeatMap} {k0 : String} {v0 : Contribs}
    {rest : FeatMap} {processed : List String} (h : processed.contains k0 = true) :
    clustersAux fm ((k0, v0) :: rest) processed = clustersAux fm rest processed := by
  simp only [clustersAux, h, if_true]

theorem clustersAux_cons_seed {fm : FeatMap} {k0 : String} {v0 : Contribs}
    {rest : FeatMap} {processed : List String} (h : ¬ processed.contains k0 = true) :
    clustersAux fm ((k0, v0) :: rest) processed =
      (⟨pyMaxBy natGtB (contribCount fm) k0 (similarTo fm processed k0),
          k0 :: similarTo fm processed k0⟩ : Cluster) ::
        clustersAux fm rest (processed ++ similarTo fm processed k0 ++
          [pyMaxBy natGtB (contribCount fm) k0 (similarTo fm processed k0)]) := by
  simp only [clustersAux, h, if_false]
  rfl

/-- A label already marked processed never appears in a later cluster. -/
theorem cnt_zero_of_processed (fm : FeatMap) :
    ∀ (rest : FeatMap) (processed : List String) (k : String), k ∈ processed →
      (clustersAux fm rest processed).countP (fun c => c.members.contains k) = 0
  | [], _, _, _ => rfl
  | (k0, v0) :: rest', processed, k, hk => by
    by_cases hk0 : processed.contains k0 = true
    · rw [clustersAux_cons_skip hk0]
      exact cnt_zero_of_processed fm rest' processed k hk
    · rw [clustersAux_cons_seed hk0, List.countP_cons]
      have hkk0 : k ≠ k0 := fun he => hk0 (str_contains_iff.mpr (he ▸ hk))
      have hfalse : ¬ ((k0 :: similarTo fm processed k0).contains k = true) := by
        intro hc
        rcases List.mem_cons.mp (str_contains_iff.mp hc) with h | h
        · exact hkk0 h
        · exact (mem_similarTo.mp h).2.2.1 hk
      rw [if_neg hfalse, Nat.add_zero]
      exact cnt_zero_of_processed fm rest' _ k
        (List.mem_append.mpr (Or.inl (List.mem_append.mpr (Or.inl hk))))

/-- A label that is no longer a pending seed and is dissimilar to every
still-unprocessed label never appears in a later cluster. -/
theorem cnt_zero_blocked (fm : FeatMap) (hsym : ∀ s c, simOK s c = simOK c s) :
    ∀ (rest : FeatMap) (processed : List String) (k : String),
      k ∉ rest.map Prod.fst →
      (∀ j ∈ rest.map Prod.fst, j ∈ fm.map Prod.fst) →
      (∀ j, j ∈ fm.map Prod.fst → j ∉ processed → j ≠ k → simOK k j = false) →
      (clustersAux fm rest processed).countP (fun c => c.members.contains k) = 0
  | [], _, _, _, _, _ => rfl
  | (k0, v0) :: rest', processed, k, hknot, hsub, hb => by
    have hknot' : k ∉ rest'.map Prod.fst := fun h =>
      hknot (by simp only [List.map_cons]; exact List.mem_cons.mpr (Or.inr h))
    have hsub' : ∀ j ∈ rest'.map Prod.fst, j ∈ fm.map Prod.fst := fun j hj =>
      hsub j (by simp only [List.map_cons]; exact List.mem_cons.mpr (Or.inr hj))
    have hk0key : k0 ∈ ((k0, v0) :: rest').map Prod.fst := by
      simp only [List.map_cons]
      exact List.mem_cons.mpr (Or.inl rfl)
    by_cases hk0 : processed.contains k0 = true
    · rw [clustersAux_cons_skip hk0]
      exact cnt_zero_blocked fm hsym rest' processed k hknot' hsub' hb
    · rw [clustersAux_cons_seed hk0, List.countP_cons]
      have hfalse : ¬ ((k0 :: similarTo fm processed k0).contains k = true) := by
        intro hc
        rcases List.mem_cons.mp (str_contains_iff.mp hc) with h | h
        · exact hknot (h ▸ hk0key)
        · obtain ⟨_, _, hknp, hsim⟩ := mem_similarTo.mp h
          have hk0fm : k0 ∈ fm.map Prod.fst := hsub k0 hk0key
          have hk0np : k0 ∉ processed := fun hin => hk0 (str_contains_iff.mpr hin)
          have hk0ne : k0 ≠ k := fun he => hknot (he ▸ hk0key)
          have hres := hb k0 hk0fm hk0np hk0ne
          rw [hsym k k0] at hres
          rw [hres] at hsim
          exact Bool.noConfusion hsim
      rw [if_neg hfalse, Nat.add_zero]
      refine cnt_zero_blocked fm hsym rest' _ k hknot' hsub' ?_
      intro j hjf hjp hjk
      exact hb j hjf
        (fun hin => hjp (List.mem_append.mpr (Or.inl (List.mem_append.mpr (Or.inl hin))))) hjk

/-- Every still-unprocessed pending label lands in exactly one cluster. -/
theorem cnt_one (fm : FeatMap) (hsym : ∀ s c, simOK s c = simOK c s) :
    ∀ (rest : FeatMap) (processed : List String) (k : String),
      (rest.map Prod.fst).Nodup →
      (∀ j ∈ rest.map Prod.fst, j ∈ fm.map Prod.fst) →
      k ∈ rest.map Prod.fst → k ∉ processed →
      (clustersAux fm rest processed).countP (fun c => c.members.contains k) = 1
  | [], _, _, _, _, hmem, _ => absurd hmem (List.not_mem_nil _)
  | (k0, v0) :: rest', processed, k, hnd, hsub, hmem, hnp => by
    have hndtail : (rest'.map Prod.fst).Nodup := by
      simp only [List.map_cons, List.nodup_cons] at hnd
      exact hnd.2
    have hk0tail : k0 ∉ rest'.map Prod.fst := by
      simp only [List.map_cons, List.nodup_cons] at hnd
      exact hnd.1
    have hsub' : ∀ j ∈ rest'.map Prod.fst, j ∈ fm.map Prod.fst := fun j hj =>
      hsub j (by simp only [List.map_cons]; exact List.mem_cons.mpr (Or.inr hj))
    have hk0key : k0 ∈ ((k0, v0) :: rest').map Prod.fst := by
      simp only [List.map_cons]
      exact List.mem_cons.mpr (Or.inl rfl)
    have hcanmem := pyMaxBy_mem natGtB (contribCount fm) (similarTo fm processed k0) k0
    by_cases hk0 : processed.contains k0 = true
    · have hkk0 : k ≠ k0 := fun he => hnp (he ▸ str_contains_iff.mp hk0)
      rw [clustersAux_cons_skip hk0]
      refine cnt_one fm hsym rest' processed k hndtail hsub' ?_ hnp
      simp only [List.map_cons, List.mem_cons] at hmem
      rcases hmem with h | h
      · exact absurd h hkk0
      · exact h
    · rw [clustersAux_cons_seed hk0, List.countP_cons]
      by_cases hkk0 : k = k0
      · rw [if_pos (str_contains_iff.mpr
          (by rw [hkk0]; exact List.mem_cons.mpr (Or.inl rfl)))]
        by_cases hcan : pyMaxBy natGtB (contribCount fm) k0 (similarTo fm processed k0) = k0
        · rw [cnt_zero_of_processed fm rest' _ k
            (List.mem_append.mpr (Or.inr (by rw [hkk0, hcan]; exact List.mem_singleton.mpr rfl)))]
        · rw [cnt_zero_blocked fm hsym rest' _ k (by rw [hkk0]; exact hk0tail) hsub' ?_]
          intro j hjf hjp hjne
          cases hsim : simOK k j
          · rfl
          · exfalso
            apply hjp
            refine List.mem_append.mpr (Or.inl (List.mem_append.mpr (Or.inr ?_)))
            refine mem_similarTo.mpr ⟨hjf, ?_, ?_, ?_⟩
            · intro he
              exact hjne (he.trans hkk0.symm)
            · exact fun hin =>
                hjp (List.mem_append.mpr (Or.inl (List.mem_append.mpr (Or.inl hin))))
            · rw [← hkk0]
              exact hsim
      · by_cases hks : k ∈ similarTo fm processed k0
        · rw [if_pos (str_contains_iff.mpr (List.mem_cons.mpr (Or.inr hks)))]
          rw [cnt_zero_of_processed fm rest' _ k
            (List.mem_append.mpr (Or.inl (List.mem_append.mpr (Or.inr hks))))]
        · rw [if_neg (fun hc => by
            rcases List.mem_cons.mp (str_contains_iff.mp hc) with h | h
            · exact hkk0 h
            · exact hks h), Nat.add_zero]
          refine cnt_one fm hsym rest' _ k hndtail hsub' ?_ ?_
          · simp only [List.map_cons, List.mem_cons] at hmem
            rcases hmem with h | h
            · exact absurd h hkk0
            · exact h
          · intro hin
            rcases List.mem_append.mp hin with h | h
            · rcases List.mem_append.mp h with h1 | h1
              · exact hnp h1
              · exact hks h1
            · have hkcan := List.mem_singleton.mp h
              rcases List.mem_cons.mp hcanmem with h2 | h2
              · exact hkk0 (hkcan.trans h2)
              · exact hks (hkcan ▸ h2)

/-- C4: the greedy single pass of match_features — each unprocessed
label in first-seen order seeds a cluster, the still-unprocessed labels
whose similarity to the seed reaches the 0.7 threshold join it and are
marked processed along with the canonical member — places every label
of the category in exactly one emitted cluster, so its (product, value)
contributions are merged under exactly one canonical label of the
result.  The similarity test is symmetric, which is what rules out a
label joining a second cluster after serving as a non-canonical seed. -/
theorem claim_C4_exactly_one_cluster (fm : FeatMap)
    (hnd : (fm.map Prod.fst).Nodup) :
    ∀ k ∈ fm.map Prod.fst,
      (clusters fm).countP (fun c => c.members.contains k) = 1 := by
  intro k hk
  exact cnt_one fm simOK_comm fm [] k hnd (fun _ hj => hj) hk (List.not_mem_nil k)

/-- C4 witness: a three-label category in which "RAM" and "RAM Memory"
cluster together while "Storage" stands alone; "RAM" is a member of
exactly one emitted cluster. -/
theorem claim_C4_exactly_one_cluster_witness :
    (clusters exClusterFm).countP (fun c => c.members.contains "RAM") = 1 :=
  claim_C4_exactly_one_cluster exClusterFm (by decide) "RAM" (by decide)

end CompEngine
